import Mathlib

/-!
Shallow embedding of the client-side core of the English_OCR repository
(`frontend/src/App.tsx`): the streaming view state, the reducer applied to
each decoded server-sent event, the navigation handlers, the line-oriented
frame decoder inside `handleSubmit`, and the markdown export in
`handleDownloadMarkdown`.

Conventions of the embedding:
* JavaScript strings handled by the frame decoder are modelled as `List Char`;
  strings built by the export are modelled as Lean `String`.
* `JSON.parse` plus the `data.type` dispatch is a platform primitive applied to
  one line; it is abstracted as a function argument
  `parse : List Char → Option StreamEvent` (returning `none` when
  `JSON.parse` throws), so decoder theorems hold for the actual parser.
* `new Date().toLocaleString()` in `handleDownloadMarkdown` is an external
  clock read; it enters the embedding as an explicit `now : String` argument.
* `streamingState` is `StreamingState | null` in the source; `handleSubmit`
  assigns a non-null record before any event is processed and every event
  branch dereferences it with `prev!`, so the embedding keeps it non-null.
-/

namespace OCRApp

/-- The `OCRResult` interface of `App.tsx` (lines 7-13). -/
structure OCRResult where
  page_number : Nat
  ocr_text : String
  status : String
  error : Option String
  page_image : Option String
deriving Repr, DecidableEq

/-- The `StreamingState` interface of `App.tsx` (lines 15-21). -/
structure StreamingState where
  total_pages : Nat
  results : List OCRResult
  processing_page : Option Nat
  api_calls_made : Option Nat
  complete : Bool
deriving Repr, DecidableEq

/-- The pieces of React component state that the stream loop, the navigation
handlers and the export read or write: `streamingState`, `error`, `loading`,
`currentPageIndex` and the selected `file` name (`App.tsx` lines 24-29). -/
structure AppState where
  streaming : StreamingState
  errorMsg : String
  loading : Bool
  currentPageIndex : Nat
  fileName : Option String
deriving Repr, DecidableEq

/-- The typed events of the wire protocol, one per `data.type` discriminator
handled by the stream loop (`metadata`, `processing`, `result`, `complete`,
`error`). -/
inductive StreamEvent where
  | metadata (total_pages : Nat)
  | processing (page_number : Nat)
  | result (page_number : Nat) (ocr_text : String) (status : String)
      (error : Option String) (page_image : Option String)
  | complete (api_calls_made : Nat)
  | error (message : String)
deriving Repr, DecidableEq

/-- The state `handleSubmit` installs before reading the stream
(`App.tsx` lines 84-91): `loading = true`, `error` empty,
`currentPageIndex = 0`, `streamingState = { total_pages: 0, results: [],
complete: false }`. -/
def submitInitialState (fileName : Option String) : AppState :=
  { streaming :=
      { total_pages := 0
        results := []
        processing_page := none
        api_calls_made := none
        complete := false }
    errorMsg := ""
    loading := true
    currentPageIndex := 0
    fileName := fileName }

/-- One application of the event dispatch in the stream loop of
`handleSubmit` (`App.tsx` lines 133-170): the `if/else` chain on `data.type`,
each branch updating the component state exactly as the source does. -/
def applyEvent (s : AppState) (e : StreamEvent) : AppState :=
  match e with
  | .metadata tp =>
      { s with streaming := { s.streaming with total_pages := tp } }
  | .processing n =>
      { s with streaming := { s.streaming with processing_page := some n } }
  | .result pn txt st er im =>
      { s with streaming :=
          { s.streaming with
            results := s.streaming.results ++
              [{ page_number := pn, ocr_text := txt, status := st,
                 error := er, page_image := im }],
            processing_page := none } }
  | .complete n =>
      { s with
        streaming :=
          { s.streaming with complete := true, api_calls_made := some n },
        loading := false }
  | .error msg =>
      { s with errorMsg := msg, loading := false }

/-- Folding a sequence of decoded events into the view state, in arrival
order, as the single-threaded stream loop does. -/
def foldEvents (s : AppState) (es : List StreamEvent) : AppState :=
  es.foldl applyEvent s

/-- The outcome a `result` event appends to `results` (the object literal in
`App.tsx` lines 146-152); other events append nothing. -/
def eventOutcome : StreamEvent → Option OCRResult
  | .result pn txt st er im =>
      some { page_number := pn, ocr_text := txt, status := st,
             error := er, page_image := im }
  | _ => none

/-- `handleNextPage` (`App.tsx` lines 221-225): advance only when
`currentPageIndex < streamingState.results.length - 1`, with JavaScript
integer arithmetic (for an empty list the bound is `-1`). -/
def handleNextPage (s : AppState) : AppState :=
  if (s.currentPageIndex : Int) < (s.streaming.results.length : Int) - 1 then
    { s with currentPageIndex := s.currentPageIndex + 1 }
  else s

/-- `handlePrevPage` (`App.tsx` lines 227-231): retreat only when
`currentPageIndex > 0`. -/
def handlePrevPage (s : AppState) : AppState :=
  if s.currentPageIndex > 0 then
    { s with currentPageIndex := s.currentPageIndex - 1 }
  else s

/-- `handlePageClick` (`App.tsx` lines 233-235): set `currentPageIndex` to
the given index, unconditionally — the source performs no range check. -/
def handlePageClick (s : AppState) (index : Nat) : AppState :=
  { s with currentPageIndex := index }

/-- The newline character on which the stream loop splits its buffer
(`buffer.split` on newline, `App.tsx` line 124). -/
def newlineChar : Char := '\x0a'

/-- JavaScript `text.split` at each newline for a single-character separator: the list
of maximal separator-free segments; always non-empty, and the last segment is
the text after the final newline (possibly empty). -/
def splitNewlines : List Char → List (List Char)
  | [] => [[]]
  | c :: rest =>
      if c = newlineChar then [] :: splitNewlines rest
      else
        match splitNewlines rest with
        | [] => [[c]]
        | h :: t => (c :: h) :: t

/-- The six-character frame marker (`data:` plus a space) checked by
`line.startsWith` in the loop (`App.tsx` line 128). -/
def dataMarker : List Char := ['d', 'a', 't', 'a', ':', ' ']

/-- Processing of one complete line (`App.tsx` lines 128-173): lines without
the `data: ` marker are ignored; marked lines have the marker stripped
(`line.slice(6)`) and are handed to `JSON.parse` plus the type dispatch,
abstracted as `parse`; a parse failure (the `catch` branch) yields no event
and is merely logged. -/
def processLine (parse : List Char → Option StreamEvent)
    (line : List Char) : Option StreamEvent :=
  if dataMarker.isPrefixOf line then parse (line.drop 6) else none

/-- One iteration of the read loop on a decoded chunk (`App.tsx` lines
123-176): append the chunk to the buffer, split on newlines, keep the last
(possibly incomplete) segment as the new buffer (`buffer = lines.pop()`),
and process every complete line in order. Returns the events produced and
the new buffer. -/
def feedChunk (parse : List Char → Option StreamEvent)
    (buf chunk : List Char) : List StreamEvent × List Char :=
  let segs := splitNewlines (buf ++ chunk)
  (segs.dropLast.filterMap (processLine parse), segs.getLastD [])

/-- The whole read loop over a sequence of arriving chunks, starting from a
given buffer: each chunk is fed in arrival order and the produced events are
concatenated. -/
def feedAll (parse : List Char → Option StreamEvent)
    (buf : List Char) : List (List Char) → List StreamEvent × List Char
  | [] => ([], buf)
  | c :: cs =>
      let fst := feedChunk parse buf c
      let rest := feedAll parse fst.2 cs
      (fst.1 ++ rest.1, rest.2)

/-- Proof-side recursive characterisation of `split` + `pop`: returns the
complete lines and the retained trailing fragment directly. -/
def splitAcc : List Char → List (List Char) × List Char
  | [] => ([], [])
  | c :: rest =>
      let p := splitAcc rest
      if c = newlineChar then ([] :: p.1, p.2)
      else
        match p.1 with
        | [] => ([], c :: p.2)
        | h :: t => ((c :: h) :: t, p.2)

/-- A line sequence rendered as a byte (character) stream, each line
terminated by a newline, as the frames of the server arrive on the wire. -/
def encodeLines : List (List Char) → List Char
  | [] => []
  | l :: ls => l ++ newlineChar :: encodeLines ls

/-- The markdown block contributed by one page (`App.tsx` line 199):
`# Page N`, the OCR text, and a horizontal-rule separator. -/
def pageBlock (r : OCRResult) : String :=
  "# Page " ++ toString r.page_number ++ "\n\n" ++ r.ocr_text ++ "\n\n---\n"

/-- The outcomes the export operates on (`App.tsx` lines 196-197): the
results whose `status` equals the `success` literal, in `results` order. -/
def exportOutcomes (results : List OCRResult) : List OCRResult :=
  results.filter (fun r => r.status == "success")

/-- The page numbers appearing in the exported document, in document order. -/
def exportedPages (results : List OCRResult) : List Nat :=
  (exportOutcomes results).map (fun r => r.page_number)

/-- The body of the exported markdown (`App.tsx` lines 196-201): the
successful results mapped to their page blocks and joined with a newline. -/
def markdownContent (results : List OCRResult) : String :=
  String.intercalate "\n" ((exportOutcomes results).map pageBlock)

/-- The full exported document (`App.tsx` lines 203-208): title with the
file name, total/successful page counts, the generation timestamp
(`new Date().toLocaleString()`, passed in as `now`), a rule, then the body. -/
def fullContent (fileName : Option String) (s : StreamingState)
    (now : String) : String :=
  "# OCR Results - " ++ fileName.getD "Document" ++ "\n\n" ++
    "**Total Pages:** " ++ toString s.total_pages ++ "\n" ++
    "**Successful Pages:** " ++
      toString (s.results.filter (fun r => r.status == "success")).length ++
      "\n" ++
    "**Generated:** " ++ now ++ "\n\n" ++
    "---\n\n" ++
    markdownContent s.results

/-- A successful page outcome used as a concrete test fixture. -/
def sampleSuccess1 : OCRResult :=
  { page_number := 1, ocr_text := "alpha", status := "success",
    error := none, page_image := none }

/-- A failed page outcome used as a concrete test fixture. -/
def sampleFailure2 : OCRResult :=
  { page_number := 2, ocr_text := "", status := "error",
    error := some "boom", page_image := none }

/-- A second successful page outcome used as a concrete test fixture. -/
def sampleSuccess3 : OCRResult :=
  { page_number := 3, ocr_text := "gamma", status := "success",
    error := none, page_image := none }

/-- The example result list of the specification:
success(1), error(2), success(3). -/
def sampleResults : List OCRResult :=
  [sampleSuccess1, sampleFailure2, sampleSuccess3]

/-- A reachable mid-stream state holding exactly one result, with the first
result selected. -/
def navSampleState : AppState :=
  { submitInitialState (some "doc.pdf") with
      streaming :=
        { total_pages := 3, results := [sampleSuccess1],
          processing_page := none, api_calls_made := none,
          complete := false } }

/-- A state whose `results` list is non-empty, used against the claim that a
Metadata event clears `results`. -/
def resultfulState : AppState :=
  { navSampleState with currentPageIndex := 0 }

/-- A state with empty `results` but `currentPageIndex = 1`. -/
def emptyIdxOneState : AppState :=
  { submitInitialState none with currentPageIndex := 1 }

/-- A state in which a Complete event has already been applied. -/
def completedState : AppState :=
  applyEvent navSampleState (.complete 3)

/-- A streaming state used by the export fixtures. -/
def exportSampleStreaming : StreamingState :=
  { total_pages := 3, results := sampleResults,
    processing_page := none, api_calls_made := some 3, complete := true }

/-- A concrete stand-in for `JSON.parse` plus the type dispatch, used by the
decoder witnesses: the body `A` parses to a metadata event, the body `C` to a
complete event, and anything else (such as the corrupted body `B`) fails. -/
def parseSample (l : List Char) : Option StreamEvent :=
  if l = ['A'] then some (.metadata 3)
  else if l = ['C'] then some (.complete 3)
  else none

/-- A well-formed frame line with body `A`. -/
def lineA : List Char := ['d', 'a', 't', 'a', ':', ' ', 'A']

/-- A malformed frame line: it carries the marker but its body `B` fails to
parse. -/
def lineB : List Char := ['d', 'a', 't', 'a', ':', ' ', 'B']

/-- A well-formed frame line with body `C`. -/
def lineC : List Char := ['d', 'a', 't', 'a', ':', ' ', 'C']

/-! ## Helper lemmas about the frame decoder -/

theorem splitNewlines_eq_splitAcc (s : List Char) :
    splitNewlines s = (splitAcc s).1 ++ [(splitAcc s).2] := by
  induction s with
  | nil => rfl
  | cons c rest ih =>
      by_cases hc : c = newlineChar
      · simp [splitNewlines, splitAcc, hc, ih]
      · cases hp : (splitAcc rest).1 with
        | nil =>
            rw [hp] at ih
            simp [splitNewlines, splitAcc, hc, ih, hp]
        | cons h t =>
            rw [hp] at ih
            simp [splitNewlines, splitAcc, hc, ih, hp]

theorem feedChunk_eq_splitAcc (parse : List Char → Option StreamEvent)
    (buf chunk : List Char) :
    feedChunk parse buf chunk =
      ((splitAcc (buf ++ chunk)).1.filterMap (processLine parse),
       (splitAcc (buf ++ chunk)).2) := by
  unfold feedChunk
  rw [splitNewlines_eq_splitAcc]
  simp

theorem splitAcc_append_of_nil (a b : List Char)
    (hb : (splitAcc b).1 = []) :
    splitAcc (a ++ b) = ((splitAcc a).1, (splitAcc a).2 ++ (splitAcc b).2) := by
  induction a with
  | nil => simp [splitAcc, hb, Prod.ext_iff]
  | cons c a ih =>
      by_cases hc : c = newlineChar
      · simp [splitAcc, hc, ih]
      · cases hp : (splitAcc a).1 with
        | nil =>
            rw [hp] at ih
            simp [splitAcc, hc, ih, hp]
        | cons h t =>
            rw [hp] at ih
            simp [splitAcc, hc, ih, hp]

theorem splitAcc_append_of_cons (a b : List Char) (h : List Char)
    (t : List (List Char)) (hb : (splitAcc b).1 = h :: t) :
    splitAcc (a ++ b) =
      ((splitAcc a).1 ++ ((splitAcc a).2 ++ h) :: t, (splitAcc b).2) := by
  induction a with
  | nil => simp [splitAcc, hb, Prod.ext_iff]
  | cons c a ih =>
      by_cases hc : c = newlineChar
      · simp [splitAcc, hc, ih]
      · cases hp : (splitAcc a).1 with
        | nil =>
            rw [hp] at ih
            simp [splitAcc, hc, ih, hp]
        | cons h0 t0 =>
            rw [hp] at ih
            simp [splitAcc, hc, ih, hp]

theorem newline_notMem_splitAcc_snd (s : List Char) :
    newlineChar ∉ (splitAcc s).2 := by
  induction s with
  | nil => simp [splitAcc]
  | cons c rest ih =>
      by_cases hc : c = newlineChar
      · simpa [splitAcc, hc] using ih
      · cases hp : (splitAcc rest).1 with
        | nil =>
            simp [splitAcc, hc, hp]
            exact ⟨fun h => hc h.symm, ih⟩
        | cons h t => simpa [splitAcc, hc, hp] using ih

theorem splitAcc_of_notMem (s : List Char) (h : newlineChar ∉ s) :
    splitAcc s = ([], s) := by
  induction s with
  | nil => rfl
  | cons c rest ih =>
      have hc : c ≠ newlineChar := fun hcc => h (hcc ▸ List.mem_cons_self c rest)
      have hrest : newlineChar ∉ rest := fun hm => h (List.mem_cons_of_mem c hm)
      have hc2 : ¬ (c = newlineChar) := hc
      simp [splitAcc, hc2, ih hrest]

theorem feedChunk_append (parse : List Char → Option StreamEvent)
    (buf c1 c2 : List Char) :
    feedChunk parse buf (c1 ++ c2) =
      ((feedChunk parse buf c1).1 ++
         (feedChunk parse (feedChunk parse buf c1).2 c2).1,
       (feedChunk parse (feedChunk parse buf c1).2 c2).2) := by
  rw [feedChunk_eq_splitAcc, feedChunk_eq_splitAcc, feedChunk_eq_splitAcc]
  have hbuf : splitAcc (splitAcc (buf ++ c1)).2 = ([], (splitAcc (buf ++ c1)).2) :=
    splitAcc_of_notMem _ (newline_notMem_splitAcc_snd _)
  cases hb : (splitAcc c2).1 with
  | nil =>
      have h1 : splitAcc (buf ++ (c1 ++ c2)) =
          ((splitAcc (buf ++ c1)).1,
           (splitAcc (buf ++ c1)).2 ++ (splitAcc c2).2) := by
        rw [← List.append_assoc]
        exact splitAcc_append_of_nil _ _ hb
      have h2 : splitAcc ((splitAcc (buf ++ c1)).2 ++ c2) =
          ([], (splitAcc (buf ++ c1)).2 ++ (splitAcc c2).2) := by
        have := splitAcc_append_of_nil (splitAcc (buf ++ c1)).2 c2 hb
        rw [hbuf] at this
        simpa using this
      simp [h1, h2]
  | cons h t =>
      have h1 : splitAcc (buf ++ (c1 ++ c2)) =
          ((splitAcc (buf ++ c1)).1 ++
             ((splitAcc (buf ++ c1)).2 ++ h) :: t, (splitAcc c2).2) := by
        rw [← List.append_assoc]
        exact splitAcc_append_of_cons _ _ _ _ hb
      have h2 : splitAcc ((splitAcc (buf ++ c1)).2 ++ c2) =
          (((splitAcc (buf ++ c1)).2 ++ h) :: t, (splitAcc c2).2) := by
        have := splitAcc_append_of_cons (splitAcc (buf ++ c1)).2 c2 h t hb
        rw [hbuf] at this
        simpa using this
      simp [h1, h2, List.filterMap_append]

theorem feedAll_cons_eq_feedChunk (parse : List Char → Option StreamEvent) :
    ∀ (cs : List (List Char)) (c buf : List Char),
      feedAll parse buf (c :: cs) = feedChunk parse buf (c ++ cs.flatten) := by
  intro cs
  induction cs with
  | nil => intro c buf; simp [feedAll]
  | cons c2 cs ih =>
      intro c buf
      have hstep : feedAll parse buf (c :: c2 :: cs) =
          ((feedChunk parse buf c).1 ++
             (feedAll parse (feedChunk parse buf c).2 (c2 :: cs)).1,
           (feedAll parse (feedChunk parse buf c).2 (c2 :: cs)).2) := by
        simp [feedAll]
      rw [hstep, ih c2 (feedChunk parse buf c).2]
      rw [List.flatten_cons, feedChunk_append parse buf c (c2 ++ cs.flatten)]

theorem splitAcc_line (l : List Char) (s : List Char)
    (h : newlineChar ∉ l) :
    splitAcc (l ++ newlineChar :: s) =
      (l :: (splitAcc s).1, (splitAcc s).2) := by
  induction l with
  | nil => simp [splitAcc]
  | cons c l ih =>
      have hc : ¬ (c = newlineChar) :=
        fun hcc => h (hcc ▸ List.mem_cons_self c l)
      have hl : newlineChar ∉ l := fun hm => h (List.mem_cons_of_mem c hm)
      simp [splitAcc, hc, ih hl]

theorem splitAcc_encodeLines (lines : List (List Char))
    (h : ∀ l ∈ lines, newlineChar ∉ l) :
    splitAcc (encodeLines lines) = (lines, []) := by
  induction lines with
  | nil => rfl
  | cons l ls ih =>
      have hl : newlineChar ∉ l := h l (List.mem_cons_self l ls)
      have hls : ∀ x ∈ ls, newlineChar ∉ x :=
        fun x hx => h x (List.mem_cons_of_mem l hx)
      simp [encodeLines, splitAcc_line l _ hl, ih hls]

theorem feedChunk_encodeLines (parse : List Char → Option StreamEvent)
    (lines : List (List Char)) (h : ∀ l ∈ lines, newlineChar ∉ l) :
    feedChunk parse [] (encodeLines lines) =
      (lines.filterMap (processLine parse), []) := by
  rw [feedChunk_eq_splitAcc]
  simp [splitAcc_encodeLines lines h]

theorem foldEvents_results (es : List StreamEvent) : ∀ (s : AppState),
    (foldEvents s es).streaming.results =
      s.streaming.results ++ es.filterMap eventOutcome := by
  induction es with
  | nil => intro s; simp [foldEvents]
  | cons e es ih =>
      intro s
      have hstep : foldEvents s (e :: es) = foldEvents (applyEvent s e) es := rfl
      rw [hstep, ih]
      cases e <;> simp [applyEvent, eventOutcome]

/-! ## Claim theorems -/

/-- Claim C1, counterexample: on a state with one result (so the valid index
range is just 0), `handlePageClick` with the out-of-range index 5 is not
rejected: it mutates the state and leaves the selected index out of range. -/
theorem select_out_of_range_mutates :
    navSampleState.streaming.results ≠ []
  ∧ ¬ (5 < navSampleState.streaming.results.length)
  ∧ handlePageClick navSampleState 5 ≠ navSampleState
  ∧ (handlePageClick navSampleState 5).currentPageIndex = 5 := by
  decide

/-- Claim C1, amended: `handlePrevPage` at index 0 is a no-op;
`handleNextPage` at the last index (and on empty results) is a no-op; both
keep the selected index within bounds whenever it is in bounds; but
`handlePageClick i` sets the selected index to `i` unconditionally, with no
range check. -/
theorem navigation_amended (s : AppState) :
    (s.currentPageIndex = 0 → handlePrevPage s = s)
  ∧ (s.currentPageIndex + 1 = s.streaming.results.length →
      handleNextPage s = s)
  ∧ (s.streaming.results = [] → handleNextPage s = s)
  ∧ (s.currentPageIndex < s.streaming.results.length →
      (handleNextPage s).currentPageIndex < s.streaming.results.length
    ∧ (handlePrevPage s).currentPageIndex < s.streaming.results.length)
  ∧ (∀ i, (handlePageClick s i).currentPageIndex = i) := by
  refine ⟨?_, ?_, ?_, ?_, fun i => rfl⟩
  · intro h
    simp [handlePrevPage, h]
  · intro h
    have hc : ¬ ((s.currentPageIndex : Int) <
        (s.streaming.results.length : Int) - 1) := by omega
    simp [handleNextPage, hc]
  · intro h
    have hc : ¬ ((s.currentPageIndex : Int) <
        (s.streaming.results.length : Int) - 1) := by
      rw [h]
      simp
      omega
    simp [handleNextPage, hc]
  · intro h
    constructor
    · unfold handleNextPage
      split
      · next hlt => simpa using by omega
      · simpa using h
    · unfold handlePrevPage
      split
      · next hpos => simpa using by omega
      · simpa using h

/-- Witness for the amended C1 theorem at concrete states. -/
theorem navigation_amended_witness :
    handlePrevPage navSampleState = navSampleState
  ∧ handleNextPage navSampleState = navSampleState
  ∧ handleNextPage (submitInitialState none) = submitInitialState none
  ∧ (handleNextPage navSampleState).currentPageIndex
      < navSampleState.streaming.results.length
  ∧ (handlePageClick navSampleState 2).currentPageIndex = 2 := by
  have h := navigation_amended navSampleState
  have h0 := navigation_amended (submitInitialState none)
  exact ⟨h.1 (by decide), h.2.1 (by decide), h0.2.2.1 (by decide),
    (h.2.2.2.1 (by decide)).1, h.2.2.2.2 2⟩

/-- Claim C2: feeding a byte stream to the frame decoder in arbitrarily
fragmented chunks (including one character at a time) produces exactly the
same ordered sequence of typed events as feeding the whole stream as a
single chunk, for every line parser. -/
theorem chunked_feed_eq_whole_feed (parse : List Char → Option StreamEvent)
    (chunks : List (List Char)) :
    (feedAll parse [] chunks).1 = (feedChunk parse [] chunks.flatten).1 := by
  cases chunks with
  | nil => simp [feedAll, feedChunk_eq_splitAcc, splitAcc]
  | cons c cs => rw [feedAll_cons_eq_feedChunk, List.flatten_cons]

/-- Claim C3: for a line sequence with one malformed frame (the marker is
present but the body fails to parse) between a well-formed frame and any
further lines, the decoder emits the first frame event, skips only the
malformed line, and still emits the events of every subsequent line. -/
theorem malformed_frame_isolated (parse : List Char → Option StreamEvent)
    (good mal : List Char) (rest : List (List Char)) (e1 : StreamEvent)
    (hgood : newlineChar ∉ good) (hmal : newlineChar ∉ mal)
    (hrest : ∀ l ∈ rest, newlineChar ∉ l)
    (hparse : processLine parse good = some e1)
    (hfail : processLine parse mal = none) :
    (feedChunk parse [] (encodeLines (good :: mal :: rest))).1
      = e1 :: rest.filterMap (processLine parse) := by
  have hall : ∀ l ∈ good :: mal :: rest, newlineChar ∉ l := by
    intro l hl
    rcases List.mem_cons.mp hl with rfl | hl
    · exact hgood
    rcases List.mem_cons.mp hl with rfl | hl
    · exact hmal
    exact hrest l hl
  rw [feedChunk_encodeLines parse _ hall]
  simp [List.filterMap_cons, hparse, hfail]

/-- Witness for C3: the concrete stream with frames `A`, corrupted `B`, `C`
decodes to the two events of `A` and `C`. -/
theorem malformed_frame_isolated_witness :
    (feedChunk parseSample [] (encodeLines [lineA, lineB, lineC])).1
      = [.metadata 3, .complete 3] := by
  have h := malformed_frame_isolated parseSample lineA lineB [lineC]
    (.metadata 3) (by decide) (by decide) (by decide) (by decide) (by decide)
  rw [h]
  decide

/-- Claim C4, counterexample: applying a Metadata event to a state whose
`results` list is non-empty does not clear `results` — the metadata branch
only sets `total_pages`. -/
theorem metadata_keeps_results_counterexample :
    (applyEvent resultfulState (.metadata 5)).streaming.results ≠ []
  ∧ (applyEvent resultfulState (.metadata 5)).streaming.results
      = resultfulState.streaming.results := by
  decide

/-- Claim C4, amended: a Metadata event sets `total_pages` to the event
value and leaves `results` unchanged (results are emptied by `handleSubmit`
before the stream starts, not by the Metadata event); folding any event
sequence from the submit-initial state yields exactly the Result outcomes of
the sequence in order, so re-folding the same sequence afresh reproduces the
same final `results` with no duplication. -/
theorem metadata_amended (s : AppState) (n : Nat) (es : List StreamEvent) :
    (applyEvent s (.metadata n)).streaming.total_pages = n
  ∧ (applyEvent s (.metadata n)).streaming.results = s.streaming.results
  ∧ (foldEvents (submitInitialState none) es).streaming.results
      = es.filterMap eventOutcome := by
  refine ⟨rfl, rfl, ?_⟩
  rw [foldEvents_results]
  simp [submitInitialState]

/-- Claim C5, counterexample: the result branch never writes the selected
index; on a state with empty `results` but selected index 1, the first
Result event leaves the index at 1 instead of selecting the first result. -/
theorem result_selection_counterexample :
    emptyIdxOneState.streaming.results = []
  ∧ (applyEvent emptyIdxOneState
      (.result 1 "alpha" "success" none none)).currentPageIndex ≠ 0 := by
  decide

/-- Claim C5, amended: a Result event appends exactly its outcome at the end
of `results`, clears `processing_page`, and leaves the selected index
unchanged; because `handleSubmit` resets the selected index to 0, when the
previous `results` were empty and the index is 0 the selected entry is the
newly appended first result. -/
theorem result_event_amended (s : AppState) (pn : Nat) (txt st : String)
    (er im : Option String) :
    (applyEvent s (.result pn txt st er im)).streaming.results
        = s.streaming.results ++
          [{ page_number := pn, ocr_text := txt, status := st,
             error := er, page_image := im }]
  ∧ (applyEvent s (.result pn txt st er im)).streaming.processing_page = none
  ∧ (applyEvent s (.result pn txt st er im)).currentPageIndex
        = s.currentPageIndex
  ∧ (s.streaming.results = [] → s.currentPageIndex = 0 →
      ((applyEvent s (.result pn txt st er im)).streaming.results)[
          (applyEvent s (.result pn txt st er im)).currentPageIndex]?
        = some { page_number := pn, ocr_text := txt, status := st,
                 error := er, page_image := im }) := by
  refine ⟨rfl, rfl, rfl, ?_⟩
  intro h1 h2
  simp [applyEvent, h1, h2]

/-- Witness for the amended C5 theorem: from the submit-initial state, the
first Result outcome becomes the selected entry. -/
theorem result_event_amended_witness :
    ((applyEvent (submitInitialState none)
        (.result 1 "alpha" "success" none none)).streaming.results)[
      (applyEvent (submitInitialState none)
        (.result 1 "alpha" "success" none none)).currentPageIndex]?
      = some { page_number := 1, ocr_text := "alpha", status := "success",
               error := none, page_image := none } :=
  (result_event_amended (submitInitialState none) 1 "alpha" "success"
    none none).2.2.2 (by decide) (by decide)

/-- Claim C6, counterexample: the reducer has no completion guard — after a
Complete event, a later Result event still appends to `results` and a later
Metadata event still rewrites `total_pages`. -/
theorem complete_guard_counterexample :
    completedState.streaming.complete = true
  ∧ (applyEvent completedState
      (.result 2 "beta" "success" none none)).streaming.results
      ≠ completedState.streaming.results
  ∧ (applyEvent completedState (.metadata 9)).streaming.total_pages
      ≠ completedState.streaming.total_pages := by
  decide

/-- Claim C6, amended: a Complete event sets the `complete` flag, and the
flag, once true, stays true under every later StreamEvent; but the reducer
does not otherwise block mutation after completion. -/
theorem complete_amended (s : AppState) (e : StreamEvent) (n : Nat)
    (h : s.streaming.complete = true) :
    (applyEvent s (.complete n)).streaming.complete = true
  ∧ (applyEvent s e).streaming.complete = true := by
  refine ⟨rfl, ?_⟩
  cases e <;> simp [applyEvent, h]

/-- Witness for the amended C6 theorem at a completed state. -/
theorem complete_amended_witness :
    (applyEvent completedState (.complete 4)).streaming.complete = true
  ∧ (applyEvent completedState (.metadata 9)).streaming.complete = true :=
  complete_amended completedState (.metadata 9) 4 (by decide)

/-- Claim C7: an Error event records the failure message and leaves the
streaming state untouched — `total_pages`, `results` (every entry, in
order) and the selected index are exactly as before. -/
theorem error_event_preserves_state (s : AppState) (msg : String) :
    (applyEvent s (.error msg)).errorMsg = msg
  ∧ (applyEvent s (.error msg)).streaming = s.streaming
  ∧ (applyEvent s (.error msg)).streaming.total_pages
      = s.streaming.total_pages
  ∧ (applyEvent s (.error msg)).streaming.results = s.streaming.results
  ∧ (applyEvent s (.error msg)).currentPageIndex = s.currentPageIndex :=
  ⟨rfl, rfl, rfl, rfl, rfl⟩

/-- Claim C8: over a view state whose `results` are in ascending page order
(the ViewState ordering invariant of the data model), the exported document
is built from exactly the outcomes with success status — an outcome is
exported iff it is a result with `status = success` — error outcomes are
omitted, no reordering occurs (the exported outcomes form a sublist of
`results`), and the exported page numbers are strictly ascending. -/
theorem export_success_only_ascending (results : List OCRResult)
    (hsorted : List.Pairwise
      (fun a b => a.page_number < b.page_number) results) :
    markdownContent results
        = String.intercalate "\n" ((exportOutcomes results).map pageBlock)
  ∧ (∀ r, r ∈ exportOutcomes results ↔ r ∈ results ∧ r.status = "success")
  ∧ (∀ r ∈ results, r.status = "error" → r ∉ exportOutcomes results)
  ∧ (exportOutcomes results).Sublist results
  ∧ List.Pairwise (· < ·) (exportedPages results) := by
  have hmem : ∀ r, r ∈ exportOutcomes results ↔
      r ∈ results ∧ r.status = "success" := by
    intro r
    simp [exportOutcomes, List.mem_filter]
  refine ⟨rfl, hmem, ?_, List.filter_sublist _, ?_⟩
  · intro r _ herr hex
    have hsucc := ((hmem r).mp hex).2
    rw [herr] at hsucc
    exact absurd hsucc (by decide)
  · have hp : List.Pairwise (fun a b => a.page_number < b.page_number)
        (exportOutcomes results) :=
      List.Pairwise.sublist (List.filter_sublist _) hsorted
    exact (List.pairwise_map).mpr hp

/-- Witness for C8 on the example of the specification,
`results = [success(1), error(2), success(3)]`: the export covers pages 1
and 3 only, in that order, and omits the error entry for page 2. -/
theorem export_success_only_ascending_witness :
    List.Pairwise (· < ·) (exportedPages sampleResults)
  ∧ sampleFailure2 ∉ exportOutcomes sampleResults
  ∧ markdownContent sampleResults
      = String.intercalate "\n" ((exportOutcomes sampleResults).map pageBlock)
  ∧ exportedPages sampleResults = [1, 3] := by
  have h := export_success_only_ascending sampleResults (by decide)
  exact ⟨h.2.2.2.2, h.2.2.1 sampleFailure2 (by decide) (by decide), h.1,
    by decide⟩

/-- Claim C9, counterexample: the exported document embeds the generation
time (`new Date().toLocaleString()`), so two invocations of the export over
the same view state at different clock readings produce different bytes. -/
theorem export_clock_counterexample :
    fullContent (some "doc.pdf") exportSampleStreaming "1/1/2025, 1:00:00 PM"
      ≠ fullContent (some "doc.pdf") exportSampleStreaming
          "1/1/2025, 1:00:01 PM" := by
  decide

/-- Claim C9, amended: export is deterministic given the view state, the
file name and the clock reading — it is a pure function of those inputs, and
two exports over the same view state agree byte-for-byte exactly when their
generation timestamps agree. -/
theorem export_deterministic_given_clock (fn : Option String)
    (s : StreamingState) (t1 t2 : String) :
    fullContent fn s t1 = fullContent fn s t2 ↔ t1 = t2 := by
  constructor
  · intro h
    have h' := congrArg String.data h
    simp only [fullContent, String.data_append, List.append_assoc] at h'
    iterate 10 replace h' := List.append_cancel_left h'
    exact String.ext (List.append_cancel_right h')
  · intro h
    rw [h]

/-- Claim C10: the result branch is append-only and blind to `page_number`:
applying a Result event yields exactly the old `results` with the new
outcome appended — prior entries are preserved at their positions, the
length always grows by one, and an outcome whose page number already occurs
is appended as a duplicate (the count of entries with that page number
increases by one), never deduplicated or merged. -/
theorem results_append_only (s : AppState) (pn : Nat) (txt st : String)
    (er im : Option String) :
    (applyEvent s (.result pn txt st er im)).streaming.results
        = s.streaming.results ++
          [{ page_number := pn, ocr_text := txt, status := st,
             error := er, page_image := im }]
  ∧ ((applyEvent s (.result pn txt st er im)).streaming.results).length
        = s.streaming.results.length + 1
  ∧ ((applyEvent s (.result pn txt st er im)).streaming.results).take
        s.streaming.results.length = s.streaming.results
  ∧ (((applyEvent s (.result pn txt st er im)).streaming.results).filter
        (fun r => r.page_number == pn)).length
        = ((s.streaming.results).filter
            (fun r => r.page_number == pn)).length + 1 := by
  refine ⟨rfl, by simp [applyEvent], ?_, ?_⟩
  · simp [applyEvent, List.take_left]
  · simp [applyEvent, List.filter_append]

end OCRApp
